import Mathlib

/-! Verification of the greenwashing-report client's section extraction,
streaming-chat assembly and metrics-scoring logic, shallowly embedded from
the TypeScript source (`v2/src/pages/Company.tsx`, `v2/src/pages/Chat.tsx`
and the chat-sidebar `ExtractScore` variants).  JavaScript strings are
modelled as `List Char` and regular-expression matching is modelled by
explicit left-to-right scanning functions with the same leftmost-match,
lazy-quantifier semantics. -/

/-- Characters accepted by the JavaScript `\s` character class and by
`String.prototype.trim` (the ASCII whitespace characters plus NBSP; the
rarer Unicode space characters are not used by any document modelled
here). -/
def isWs (c : Char) : Bool :=
  c = ' ' || c = '\t' || c = '\n' || c = '\r' || c = '\x0b' || c = '\x0c' || c = ' '

/-- Shorthand converting a string literal to its character list. -/
def toL (s : String) : List Char := s.toList

/-- The model of `String.prototype.trim`: whitespace removed from both
ends. -/
def trimL (l : List Char) : List Char :=
  ((l.dropWhile isWs).reverse.dropWhile isWs).reverse

/-- Substring test: does `pat` occur contiguously inside `l`? -/
def containsSeg (pat : List Char) : List Char → Bool
  | [] => pat.isEmpty
  | c :: rest => pat.isPrefixOf (c :: rest) || containsSeg pat rest

/-! ### The section extractor (`extractSection`, Company.tsx lines 20-38)

The regex is
`\*\*N\.\s[\s\S]*?(?=\n\n\*\*{N+1}\.\s|\n\n\*\*{N+2}\.\s|$)` with the `i`
flag (which is irrelevant: the pattern contains no letters).  The match,
when found, has its heading removed by `replace(/^\*\*N\..*?\*\*/, "")`
and is trimmed. -/

/-- The literal prefix `**N.` of the heading pattern `\*\*N\.\s`. -/
def startPat (n : Nat) : List Char := '*' :: '*' :: (Nat.toDigits 10 n ++ ['.'])

/-- Does `\*\*n\.\s` match at the head of `l`? -/
def headsStart (n : Nat) (l : List Char) : Bool :=
  (startPat n).isPrefixOf l &&
    (match l.drop (startPat n).length with
     | c :: _ => isWs c
     | [] => false)

/-- Does the lookahead alternative `\n\n\*\*m\.\s` match at the head of
`l`? -/
def sepStart (m : Nat) (l : List Char) : Bool :=
  match l with
  | '\n' :: '\n' :: rest => headsStart m rest
  | _ => false

/-- The lazy quantifier stops here: end of input, or a blank line followed
by the heading for `n+1` or `n+2` (the skipped-ordinal tolerance). -/
def atEnd (n : Nat) (l : List Char) : Bool :=
  l.isEmpty || sepStart (n + 1) l || sepStart (n + 2) l

/-- The characters matched by the lazy `[\s\S]*?` before the lookahead
fires: the shortest prefix whose remainder satisfies `atEnd`. -/
def grabMatch (n : Nat) : List Char → List Char
  | [] => []
  | c :: rest => if atEnd n (c :: rest) then [] else c :: grabMatch n rest

/-- The whole regex match (`match[0]`) starting at the head of `l`; the
consumed prefix is `**n.` plus one whitespace character. -/
def takeMatch (n : Nat) (l : List Char) : List Char :=
  l.take ((startPat n).length + 1) ++ grabMatch n (l.drop ((startPat n).length + 1))

/-- The lazy `.*?\*\*` closing the heading inside the `replace` call: the
span up to the first `**`, failing if a line terminator intervenes
(JavaScript `.` does not match line terminators). -/
def findClose : List Char → Option (List Char)
  | c1 :: c2 :: rest =>
    if c1 = '*' && c2 = '*' then some rest
    else if c1 = '\n' || c1 = '\r' then none
    else findClose (c2 :: rest)
  | _ => none

/-- The `replace(/^\*\*N\..*?\*\*/, "")` call stripping the heading from
the match; when the heading is not closed by `**` on its first line the
replacement regex fails and the match is returned unchanged. -/
def stripHead (n : Nat) (m : List Char) : List Char :=
  if (startPat n).isPrefixOf m then
    match findClose (m.drop (startPat n).length) with
    | some rest => rest
    | none => m
  else m

/-- `extractSection(text, n)` on string input: find the leftmost start of
`\*\*n\.\s`, take the lazy match, strip the heading and trim; return the
empty string when the regex never matches. -/
def extractSection (n : Nat) : List Char → List Char
  | [] => []
  | c :: rest =>
    if headsStart n (c :: rest) then trimL (stripHead n (takeMatch n (c :: rest)))
    else extractSection n rest

/-- A JavaScript value handed to `extractSection`: either a string or some
non-string value, which the guard on line 21 maps to the empty string. -/
inductive JSVal where
  | str : List Char → JSVal
  | nonStr : JSVal

/-- `extractSection` including its runtime type guard
(`if (!text || typeof text !== "string") return ""`). -/
def extractSectionJS (n : Nat) : JSVal → List Char
  | JSVal.str s => extractSection n s
  | JSVal.nonStr => []

/-- Does `\*\*n\.\s` match anywhere inside `l`? -/
def hasStart (n : Nat) : List Char → Bool
  | [] => false
  | c :: rest => headsStart n (c :: rest) || hasStart n rest

/-- The emphasis-grammar heading text `**n. t**` of section `n`. -/
def headingTxt (n : Nat) (t : List Char) : List Char :=
  startPat n ++ ' ' :: (t ++ ['*', '*'])

/-- Number of positions of `l` at which `pat` starts. -/
def countSeg (pat : List Char) : List Char → Nat
  | [] => 0
  | c :: rest => (if pat.isPrefixOf (c :: rest) then 1 else 0) + countSeg pat rest

/-! ### The executive-summary computation (`summary`, Company.tsx lines 159-171)

The code matches `/\*\*1\. Executive Summary\*\*([\s\S]*?)(?=\n\n\*\*2\.)/`
against `final_synthesis`; on a match the trimmed capture group is the
summary, otherwise the first 200 characters of the document followed by
`"..."`; when `final_synthesis` is empty the separate `summary` field (or
a fixed placeholder) is used. -/

/-- The literal heading `**1. Executive Summary**` of the summary regex. -/
def lit1 : List Char := toL "**1. Executive Summary**"

/-- The literal lookahead terminator `\n\n\*\*2\.` of the summary regex. -/
def sep2 : List Char := toL "\n\n**2."

/-- The lazy capture `([\s\S]*?)` running up to the first occurrence of
`term`; `none` when `term` never occurs. -/
def grabUntil (term : List Char) : List Char → Option (List Char)
  | [] => none
  | c :: rest =>
    if term.isPrefixOf (c :: rest) then some []
    else
      match grabUntil term rest with
      | some g => some (c :: g)
      | none => none

/-- Leftmost match of the summary regex: at each occurrence of the literal
heading, the capture group runs up to the terminator; when the lookahead
can never be satisfied the engine advances one position. -/
def execMatch : List Char → Option (List Char)
  | [] => none
  | c :: rest =>
    if lit1.isPrefixOf (c :: rest) then
      match grabUntil sep2 ((c :: rest).drop lit1.length) with
      | some g => some g
      | none => execMatch rest
    else execMatch rest

/-- The summary computed from a non-empty `final_synthesis` document:
trimmed capture on a match, otherwise the 200-character fallback with an
appended ellipsis. -/
def summaryFS (fs : List Char) : List Char :=
  match execMatch fs with
  | some g => trimL g
  | none => fs.take 200 ++ toL "..."

/-- The whole `summary` field of the view object: empty `final_synthesis`
falls back to the response's `summary` field or a fixed placeholder. -/
def summary (fs : List Char) (summaryField : Option (List Char)) : List Char :=
  if fs.isEmpty then summaryField.getD (toL "暂无摘要信息")
  else summaryFS fs

/-- Text of `l` before the first blank-line break (`\n\n`). -/
def beforeBlank : List Char → List Char
  | [] => []
  | c :: rest =>
    if (toL "\n\n").isPrefixOf (c :: rest) then []
    else c :: beforeBlank rest

/-- The executive-summary fallback chain exactly as the specification
words it (three steps: keyed extraction; else the first paragraph
preceding a blank-line break; else the first 200 characters), written
only to be compared against the `summary` implementation above. -/
def specSummaryChain (fs : List Char) : List Char :=
  match execMatch fs with
  | some g => trimL g
  | none =>
    let p := beforeBlank fs
    if p.isEmpty then fs.take 200 else p

/-! ### The evidence view (`evidenceGroups`, Company.tsx lines 202-211)

The code extracts section 2 and, when non-empty, wraps the whole trimmed
body in a single group holding a single item whose `quote` is the body
and whose `why` is empty. -/

/-- One evidence item of the view (`{quote, why}`). -/
structure EvItem where
  quote : List Char
  why : List Char
deriving DecidableEq

/-- One evidence group of the view (`{type, items}`). -/
structure EvGroup where
  gtype : List Char
  items : List EvItem
deriving DecidableEq

/-- The fixed group label used by the code. -/
def evTypeLabel : List Char := toL "Key Findings and Evidence from Document Analysis"

/-- `evidenceGroups` of the view object built from `final_synthesis`. -/
def evidenceGroups (fs : List Char) : List EvGroup :=
  let sec2 := extractSection 2 fs
  if sec2.isEmpty then []
  else [⟨evTypeLabel, [⟨trimL sec2, []⟩]⟩]

/-- Total number of evidence items across all groups. -/
def evItemCount (gs : List EvGroup) : Nat :=
  gs.foldl (fun acc g => acc + g.items.length) 0

/-! ### The chat exchange (`handleSend`, Chat.tsx lines 28-67)

The handler guards on empty input or an in-flight exchange, appends the
user message, issues the request and either streams chunks into an
accumulator (committing it as the assistant message and clearing the
partial-message slot) or, on any thrown failure, appends a synthesized
`Error: ...` assistant message.  The `finally` block clears the
in-flight flag.  The model makes the transport outcome an explicit
parameter and reports whether a request was issued and the successive
accumulator states. -/

/-- A chat participant. -/
inductive Role where
  | user : Role
  | assistant : Role
deriving DecidableEq

/-- One committed chat message. -/
structure Message where
  role : Role
  content : String
deriving DecidableEq

/-- The component state touched by `handleSend`. -/
structure ChatState where
  messages : List Message
  currentMessage : Option String
  input : String
  sendingMessage : Bool
deriving DecidableEq

/-- Outcome of the network exchange: the fetch promise rejects (with an
optional error message), the response is not ok / has no body, the body
streams a chunk list to completion, or `reader.read()` rejects after a
prefix of chunks was received. -/
inductive Transport where
  | rejected : Option String → Transport
  | badStatus : Transport
  | okStream : List String → Transport
  | okStreamFail : List String → Option String → Transport

/-- Result of one `handleSend` invocation: the final component state,
whether a network request was issued, and the accumulator value observed
after each received chunk. -/
structure SendResult where
  state : ChatState
  requestSent : Bool
  accTrace : List String
deriving DecidableEq

/-- The synthesized failure text `Error: ${e?.message || "Sending failed"}`. -/
def errText : Option String → String
  | some s => if s = "" then "Error: Sending failed" else "Error: " ++ s
  | none => "Error: Sending failed"

/-- The message of the error thrown on a non-ok or bodyless response
(Chat.tsx line 43). -/
def badStatusMsg : String :=
  "Chat API unavailable or analysis session missing, please upload a report first"

/-- Successive values of the accumulator `acc` as each chunk is appended. -/
def accStates (acc : String) : List String → List String
  | [] => []
  | c :: rest => (acc ++ c) :: accStates (acc ++ c) rest

/-- Final accumulator value after all chunks. -/
def joinFrom (acc : String) (cs : List String) : String :=
  cs.foldl (fun a c => a ++ c) acc

/-- The model of `input.trim()` on chat input (JavaScript `trim`,
computed over the character list). -/
def jsTrim (s : String) : String := String.mk (trimL s.toList)

/-- The `handleSend` callback (Chat.tsx lines 28-67). -/
def handleSend (st : ChatState) (tr : Transport) : SendResult :=
  if jsTrim st.input = "" || st.sendingMessage then ⟨st, false, []⟩
  else
    let userMsg : Message := ⟨Role.user, jsTrim st.input⟩
    let m1 := st.messages ++ [userMsg]
    match tr with
    | Transport.rejected e =>
      ⟨⟨m1 ++ [⟨Role.assistant, errText e⟩], st.currentMessage, "", false⟩, true, []⟩
    | Transport.badStatus =>
      ⟨⟨m1 ++ [⟨Role.assistant, errText (some badStatusMsg)⟩], st.currentMessage, "", false⟩,
        true, []⟩
    | Transport.okStream chunks =>
      ⟨⟨m1 ++ [⟨Role.assistant, joinFrom "" chunks⟩], none, "", false⟩, true,
        accStates "" chunks⟩
    | Transport.okStreamFail chunks e =>
      ⟨⟨m1 ++ [⟨Role.assistant, errText e⟩], some (joinFrom "" chunks), "", false⟩, true,
        accStates "" chunks⟩

/-! ### JSON values and `JSON.parse`

The metrics payloads (`graphdata` and chat-sidebar messages) are JSON
objects of decimal numbers, strings and nested objects.  `JSON.parse` is
modelled on that subset: string escapes, hexadecimal forms and the
leading-zero restriction are not modelled because no payload handled
here uses them; duplicate object keys keep the last value at the first
position, as in JavaScript. -/

/-- A parsed JSON value.  Numbers are exact rationals. -/
inductive JVal where
  | num : Rat → JVal
  | str : List Char → JVal
  | obj : List (List Char × JVal) → JVal
  | arr : List JVal → JVal
  | jsbool : Bool → JVal
  | null : JVal

/-- JSON insignificant whitespace. -/
def isJsonWs (c : Char) : Bool :=
  c = ' ' || c = '\t' || c = '\n' || c = '\r'

/-- Characters of a string literal after the opening quote, up to the
closing quote; a backslash (an escape, unused in the modelled payloads)
makes the parse fail. -/
def strChars : List Char → Option (List Char × List Char)
  | [] => none
  | '"' :: rest => some ([], rest)
  | '\\' :: _ => none
  | c :: rest => (strChars rest).map (fun p => (c :: p.1, p.2))

/-- Decimal digits to a natural number. -/
def digitsToNat (ds : List Char) : Nat :=
  ds.foldl (fun acc c => 10 * acc + (c.toNat - '0'.toNat)) 0

/-- Value of a fractional digit run. -/
def fracVal (fs : List Char) : Rat :=
  (digitsToNat fs : Rat) / (10 : Rat) ^ fs.length

/-- Exponent digits: scales `v` by the signed power of ten. -/
def expDigits (v : Rat) (neg : Bool) (l : List Char) : Option (Rat × List Char) :=
  let ds := l.takeWhile Char.isDigit
  if ds.isEmpty then none
  else
    let e := digitsToNat ds
    some (if neg then v / (10 : Rat) ^ e else v * (10 : Rat) ^ e, l.drop ds.length)

/-- Exponent sign and digits after `e`/`E`. -/
def parseExpTail (v : Rat) (l : List Char) : Option (Rat × List Char) :=
  match l with
  | '+' :: r => expDigits v false r
  | '-' :: r => expDigits v true r
  | _ => expDigits v false l

/-- Optional exponent part. -/
def parseExpPart (v : Rat) (l : List Char) : Option (Rat × List Char) :=
  match l with
  | 'e' :: r => parseExpTail v r
  | 'E' :: r => parseExpTail v r
  | _ => some (v, l)

/-- Unsigned JSON number: integer digits, optional fraction, optional
exponent. -/
def parsePosNum (l : List Char) : Option (Rat × List Char) :=
  let ds := l.takeWhile Char.isDigit
  if ds.isEmpty then none
  else
    let r1 := l.drop ds.length
    match r1 with
    | '.' :: r2 =>
      let fs := r2.takeWhile Char.isDigit
      if fs.isEmpty then none
      else parseExpPart ((digitsToNat ds : Rat) + fracVal fs) (r2.drop fs.length)
    | _ => parseExpPart ((digitsToNat ds : Rat)) r1

/-- JSON number with optional leading minus. -/
def parseJNum (l : List Char) : Option (Rat × List Char) :=
  match l with
  | '-' :: r => (parsePosNum r).map (fun p => (-p.1, p.2))
  | _ => parsePosNum l

/-- Replace the value of `k` in place, or append the new pair. -/
def insertKV (k : List Char) (v : JVal) :
    List (List Char × JVal) → List (List Char × JVal)
  | [] => [(k, v)]
  | (k2, v2) :: rest => if k2 = k then (k2, v) :: rest else (k2, v2) :: insertKV k v rest

/-- Duplicate keys resolved as JavaScript objects do: last value wins,
first position kept. -/
def dedupKV (kvs : List (List Char × JVal)) : List (List Char × JVal) :=
  kvs.foldl (fun acc p => insertKV p.1 p.2 acc) []

mutual

/-- One JSON value, fuel-bounded (the fuel is at least the input length,
so it never runs out on a consumed character). -/
def parseVal : Nat → List Char → Option (JVal × List Char)
  | 0, _ => none
  | fuel + 1, l =>
    match l.dropWhile isJsonWs with
    | '"' :: rest => (strChars rest).map (fun p => (JVal.str p.1, p.2))
    | '{' :: rest => (parseObjBody fuel rest).map (fun p => (JVal.obj (dedupKV p.1), p.2))
    | '[' :: rest => (parseArrBody fuel rest).map (fun p => (JVal.arr p.1, p.2))
    | 't' :: rest => if (toL "rue").isPrefixOf rest
        then some (JVal.jsbool true, rest.drop 3) else none
    | 'f' :: rest => if (toL "alse").isPrefixOf rest
        then some (JVal.jsbool false, rest.drop 4) else none
    | 'n' :: rest => if (toL "ull").isPrefixOf rest
        then some (JVal.null, rest.drop 3) else none
    | l2 => (parseJNum l2).map (fun p => (JVal.num p.1, p.2))

/-- Object members after the opening brace. -/
def parseObjBody : Nat → List Char → Option (List (List Char × JVal) × List Char)
  | 0, _ => none
  | fuel + 1, l =>
    match l.dropWhile isJsonWs with
    | '}' :: rest => some ([], rest)
    | '"' :: rest =>
      match strChars rest with
      | some (k, r1) =>
        match r1.dropWhile isJsonWs with
        | ':' :: r2 =>
          match parseVal fuel r2 with
          | some (v, r3) =>
            match r3.dropWhile isJsonWs with
            | ',' :: r4 => (parseObjBody fuel r4).map (fun p => ((k, v) :: p.1, p.2))
            | '}' :: r4 => some ([(k, v)], r4)
            | _ => none
          | none => none
        | _ => none
      | none => none
    | _ => none

/-- Array elements after the opening bracket. -/
def parseArrBody : Nat → List Char → Option (List JVal × List Char)
  | 0, _ => none
  | fuel + 1, l =>
    match l.dropWhile isJsonWs with
    | ']' :: rest => some ([], rest)
    | l2 =>
      match parseVal fuel l2 with
      | some (v, r1) =>
        match r1.dropWhile isJsonWs with
        | ',' :: r2 => (parseArrBody fuel r2).map (fun p => (v :: p.1, p.2))
        | ']' :: r2 => some ([v], r2)
        | _ => none
      | none => none

end

/-- The model of `JSON.parse`: one value consuming the whole input. -/
def jsonParse (l : List Char) : Option JVal :=
  match parseVal (l.length + 1) l with
  | some (v, rest) => if (rest.dropWhile isJsonWs).isEmpty then some v else none
  | none => none

/-- Property lookup on an object value (`undefined` is `none`); any
non-object — including the primitives a parse may yield — has none of the
properties used here. -/
def getField (j : JVal) (k : List Char) : Option JVal :=
  match j with
  | JVal.obj kvs => kvs.foldl (fun acc p => if p.1 = k then some p.2 else acc) none
  | _ => none

/-- The model of the `Number(string)` coercion used by the table parser
(whitespace-trimmed decimal forms; the unused hexadecimal and Infinity
forms are not modelled and yield NaN). `none` stands for NaN. -/
def jsNumberStr (l : List Char) : Option Rat :=
  let t := trimL l
  if t.isEmpty then some 0
  else
    let signedTail : Bool × List Char :=
      match t with
      | '-' :: r => (true, r)
      | '+' :: r => (false, r)
      | _ => (false, t)
    let ds := signedTail.2.takeWhile Char.isDigit
    let r1 := signedTail.2.drop ds.length
    let parsed : Option (Rat × List Char) :=
      match r1 with
      | '.' :: r2 =>
        let fs := r2.takeWhile Char.isDigit
        if ds.isEmpty && fs.isEmpty then none
        else parseExpPart ((digitsToNat ds : Rat) + fracVal fs) (r2.drop fs.length)
      | _ => if ds.isEmpty then none else parseExpPart ((digitsToNat ds : Rat)) r1
    match parsed with
    | some (v, rest) => if rest.isEmpty then some (if signedTail.1 then -v else v) else none
    | none => none

/-- `ToNumber` on a JSON value, as used by `x * 10`: numbers are
themselves, strings coerce as `Number`, booleans and null to 0/1, objects
and arrays to NaN (the array-to-string coercion path is never exercised
by the modelled payloads). -/
def jsToNum : JVal → Option Rat
  | JVal.num q => some q
  | JVal.str s => jsNumberStr s
  | JVal.jsbool b => some (if b then 1 else 0)
  | JVal.null => some 0
  | JVal.obj _ => none
  | JVal.arr _ => none

/-- `Math.round` lifted over NaN: floor of `x + 1/2`. -/
def jsRoundN (m : Option Rat) : Option Rat :=
  m.map (fun q => ((⌊q + 1 / 2⌋ : Int) : Rat))

/-! ### The score and breakdown view fields (Company.tsx lines 136-157 and 173-201)

A string `graphdata` first has every ```` ```json ````-fence (with its
optional newline) and every bare ```` ``` ```` removed and is trimmed,
then `JSON.parse` is attempted; on failure the stray whitespace around a
leading `{` and a trailing `}` is tightened and the parse is retried; a
second failure reaches the surrounding `catch`, which falls back to
`Math.round(overall_score ?? 0)` for the score and to `[]` for the
breakdown. -/

/-- Remove every occurrence of ```` ```json ```` and one following
newline (`replace(/```json\n?/g, '')`), fuel-bounded by the input
length. -/
def rmJsonFenceGo : Nat → List Char → List Char
  | 0, l => l
  | fuel + 1, l =>
    match l with
    | [] => []
    | c :: rest =>
      if (toL "```json").isPrefixOf (c :: rest) then
        match (c :: rest).drop 7 with
        | c2 :: r2 => if c2 = '\n' then rmJsonFenceGo fuel r2 else rmJsonFenceGo fuel (c2 :: r2)
        | [] => []
      else c :: rmJsonFenceGo fuel rest

/-- `replace(/```json\n?/g, '')`. -/
def rmJsonFence (l : List Char) : List Char := rmJsonFenceGo l.length l

/-- Remove every remaining ```` ``` ```` (`replace(/```/g, '')`),
fuel-bounded by the input length. -/
def rmTicksGo : Nat → List Char → List Char
  | 0, l => l
  | fuel + 1, l =>
    match l with
    | [] => []
    | c :: rest =>
      if (toL "```").isPrefixOf (c :: rest) then rmTicksGo fuel ((c :: rest).drop 3)
      else c :: rmTicksGo fuel rest

/-- `replace(/```/g, '')`. -/
def rmTicks (l : List Char) : List Char := rmTicksGo l.length l

/-- The fence-stripping and trimming applied before the first parse. -/
def cleanGraph (s : List Char) : List Char := trimL (rmTicks (rmJsonFence s))

/-- `replace(/^\s*{\s*/, '{')`: when the text starts with whitespace and
then `{`, tighten it; otherwise leave it unchanged. -/
def fixOpen (l : List Char) : List Char :=
  match l.dropWhile isWs with
  | '{' :: rest => '{' :: rest.dropWhile isWs
  | _ => l

/-- `replace(/\s*}\s*$/, '}')`: when the text ends with `}` up to
whitespace, tighten that tail; otherwise leave it unchanged. -/
def fixClose (l : List Char) : List Char :=
  match l.reverse.dropWhile isWs with
  | '}' :: r2 => ('}' :: r2.dropWhile isWs).reverse
  | _ => l

/-- The two-attempt parse: strict parse of the cleaned text, then the
brace repair and a retry. -/
def parseChain (s : List Char) : Option JVal :=
  match jsonParse (cleanGraph s) with
  | some j => some j
  | none => jsonParse (fixClose (fixOpen (cleanGraph s)))

/-- The `graphdata` field when truthy: a raw string or an
already-structured value. -/
inductive GraphData where
  | gstr : List Char → GraphData
  | gobj : JVal → GraphData

/-- Key of the overall score entry. -/
def ogsKey : List Char := toL "overall_greenwashing_score"

/-- Key of the per-metric score field. -/
def scoreKey : List Char := toL "score"

/-- `graphdata.overall_greenwashing_score?.score ?? 0` coerced to a
number (the optional chaining sits after the first access, so this is
only evaluated on a non-null payload). -/
def overallFromGraph (j : JVal) : Option Rat :=
  jsToNum (((getField j ogsKey).bind (fun v => getField v scoreKey)).getD (JVal.num 0))

/-- Is the parsed payload JSON `null`?  The unguarded accesses
`graphdata.overall_greenwashing_score` and `Object.entries(graphdata)`
throw a TypeError on null, landing in the surrounding catch (undefined,
the other throwing value, cannot come out of `JSON.parse`). -/
def nullPayload : JVal → Bool
  | JVal.null => true
  | _ => false

/-- The `score` view field (Company.tsx lines 136-157): parsed graphdata
scaled by ten and rounded, with the `overall_score` fallback on a missing
graphdata, on a double parse failure, or on the TypeError thrown when the
parsed payload is null. -/
def score (gd : Option GraphData) (overall_score : Option Rat) : Option Rat :=
  match gd with
  | some (GraphData.gobj j) =>
    if nullPayload j then jsRoundN (some (overall_score.getD 0))
    else jsRoundN ((overallFromGraph j).map (fun q => q * 10))
  | some (GraphData.gstr s) =>
    match parseChain s with
    | some j =>
      if nullPayload j then jsRoundN (some (overall_score.getD 0))
      else jsRoundN ((overallFromGraph j).map (fun q => q * 10))
    | none => jsRoundN (some (overall_score.getD 0))
  | none => jsRoundN (some (overall_score.getD 0))

/-- Is `c` in the JavaScript `\w` class? -/
def isWordChar (c : Char) : Bool := c.isAlpha || c.isDigit || c = '_'

/-- Uppercase every `\b\w` position (`replace(/\b\w/g, l => l.toUpperCase())`);
the flag records whether the previous character was a non-word character. -/
def capWordsGo (afterBoundary : Bool) : List Char → List Char
  | [] => []
  | c :: rest =>
    if isWordChar c then (if afterBoundary then c.toUpper else c) :: capWordsGo false rest
    else c :: capWordsGo true rest

/-- The breakdown key display transform: underscores to spaces, then each
word-initial character uppercased. -/
def prettifyKey (k : List Char) : List Char :=
  capWordsGo true (k.map (fun c => if c = '_' then ' ' else c))

/-- `Object.entries` on a parsed value: an object's pairs, an array's
index/value pairs, a string's index/character pairs, nothing for the
remaining primitives. -/
def entriesOf : JVal → List (List Char × JVal)
  | JVal.obj kvs => kvs
  | JVal.arr vs => vs.enum.map (fun p => (toL (toString p.1), p.2))
  | JVal.str s => s.enum.map (fun p => (toL (toString p.1), JVal.str [p.2]))
  | _ => []

/-- One breakdown row: prettified key and `Math.round((value?.score ?? 0) * 10)`. -/
def breakdownRow (k : List Char) (v : JVal) : List Char × Option Rat :=
  (prettifyKey k, jsRoundN ((jsToNum ((getField v scoreKey).getD (JVal.num 0))).map
    (fun q => q * 10)))

/-- The `breakdown` view field (Company.tsx lines 173-201): the map over
`Object.entries`, with the empty list on a parse failure and also on the
TypeError `Object.entries` throws when the parsed payload is null. -/
def breakdown (gd : Option GraphData) (fallbackRows : List (List Char × Option Rat)) :
    List (List Char × Option Rat) :=
  match gd with
  | some (GraphData.gobj j) =>
    if nullPayload j then []
    else ((entriesOf j).filter (fun p => p.1 ≠ ogsKey)).map (fun p => breakdownRow p.1 p.2)
  | some (GraphData.gstr s) =>
    match parseChain s with
    | some j =>
      if nullPayload j then []
      else ((entriesOf j).filter (fun p => p.1 ≠ ogsKey)).map
        (fun p => breakdownRow p.1 p.2)
    | none => []
  | none => fallbackRows.map (fun p => (p.1, jsRoundN (some (p.2.getD 0))))

/-! ### The chat-sidebar metrics extractor (`ExtractScore`)

Two variants exist: the string-only one (`src/unnamed/part_008`, lines
37-75) and the any-typed one (`src/unnamed/part_004`, lines 38-91) which
first attempts `JSON.parse` on string input and walks object entries. -/

/-- Case-insensitive literal prefix test (the `i` regex flag). -/
def ciPrefix : List Char → List Char → Bool
  | [], _ => true
  | _ :: _, [] => false
  | p :: ps, c :: cs => (p.toLower = c.toLower) && ciPrefix ps cs

/-- The marker literal of the overall-score regex. -/
def markerL : List Char := toL "Overall Greenwashing Score"

/-- The number token `(?:\d*\.\d+)|(?:\d+)` with `parseFloat` applied to
the capture. -/
def numTok (l : List Char) : Option Rat :=
  let ds := l.takeWhile Char.isDigit
  match l.drop ds.length with
  | '.' :: r2 =>
    let fs := r2.takeWhile Char.isDigit
    if fs.isEmpty then (if ds.isEmpty then none else some ((digitsToNat ds : Rat)))
    else some ((digitsToNat ds : Rat) + fracVal fs)
  | _ => if ds.isEmpty then none else some ((digitsToNat ds : Rat))

/-- Does `/\**Overall Greenwashing Score\**:\s*((?:\d*\.\d+)|(?:\d+))/i`
match at the head of `l`?  Returns the captured number. -/
def matchOverallAt (l : List Char) : Option Rat :=
  let l1 := l.dropWhile (fun c => c = '*')
  if ciPrefix markerL l1 then
    match (l1.drop markerL.length).dropWhile (fun c => c = '*') with
    | ':' :: l3 => numTok (l3.dropWhile isWs)
    | _ => none
  else none

/-- Leftmost match of the overall-score regex over the whole message. -/
def findOverall : List Char → Option Rat
  | [] => none
  | c :: rest =>
    match matchOverallAt (c :: rest) with
    | some q => some q
    | none => findOverall rest

/-- One lazy segment of `\|.*?\|`: characters up to the next `|` on the
same line, returning the segment and the rest after that `|`. -/
def pipeSeg : List Char → Option (List Char × List Char)
  | [] => none
  | '|' :: rest => some ([], rest)
  | '\n' :: _ => none
  | '\r' :: _ => none
  | c :: rest => (pipeSeg rest).map (fun p => (c :: p.1, p.2))

/-- A whole `\|.*?\|.*?\|` match starting at the head of `l`. -/
def tryRow (l : List Char) : Option (List Char × List Char) :=
  match l with
  | '|' :: r =>
    match pipeSeg r with
    | some (s1, r1) =>
      match pipeSeg r1 with
      | some (s2, r2) => some ('|' :: s1 ++ '|' :: s2 ++ ['|'], r2)
      | none => none
    | none => none
  | _ => none

/-- All matches of the global row regex, scanning left to right and
restarting after each match (fuel-bounded by the input length). -/
def rowsScanGo : Nat → List Char → List (List Char)
  | 0, _ => []
  | fuel + 1, l =>
    match l with
    | [] => []
    | c :: rest =>
      match tryRow (c :: rest) with
      | some (m, after) => m :: rowsScanGo fuel after
      | none => rowsScanGo fuel rest

/-- `message.match(/\|.*?\|.*?\|/g)?.slice(2) || []`. -/
def tableRows (msg : List Char) : List (List Char) :=
  (rowsScanGo msg.length msg).drop 2

/-- Does the separator `\s*\|\s*` start at the head of `l`? -/
def beginsSep (l : List Char) : Bool :=
  match l.dropWhile isWs with
  | '|' :: _ => true
  | _ => false

/-- Consume the separator at the head of `l`. -/
def afterSep (l : List Char) : List Char :=
  ((l.dropWhile isWs).drop 1).dropWhile isWs

/-- `row.split(/\s*\|\s*/)`, fuel-bounded by the input length. -/
def splitGo : Nat → List Char → List Char → List (List Char)
  | 0, cur, l => [cur.reverse ++ l]
  | fuel + 1, cur, l =>
    match l with
    | [] => [cur.reverse]
    | c :: rest =>
      if beginsSep (c :: rest) then cur.reverse :: splitGo fuel [] (afterSep (c :: rest))
      else splitGo fuel (c :: cur) rest

/-- Split a table row on pipes, trim each cell, drop the empties. -/
def rowCols (row : List Char) : List (List Char) :=
  ((splitGo (row.length + 1) [] row).map trimL).filter (fun x => !x.isEmpty)

/-- One metric entry of the chat-sidebar analysis: `none` as a Score
models NaN. -/
structure ScoreData where
  Metric : List Char
  Score : Option Rat

/-- The analysis result of the string-only variant. -/
structure AnalysisResult where
  metrics : List ScoreData
  overallScore : Option Rat

/-- One metric row: the split columns give a metric name and a score,
kept only when there are at least two columns and `Number(cols[1])` is
not NaN (`!isNaN(Number(cols[1]))`). -/
def rowEntry (row : List Char) : Option ScoreData :=
  match rowCols row with
  | c0 :: c1 :: _ =>
    match jsNumberStr c1 with
    | some q => some ⟨c0, some q⟩
    | none => none
  | _ => none

/-- The pushed metric entries, in row order. -/
def rowEntries (msg : List Char) : List ScoreData :=
  (tableRows msg).filterMap rowEntry

/-- `ExtractScore` of `src/unnamed/part_008` (string input): a trim-empty
message yields the empty result; otherwise the overall marker and, when
`'|--'` occurs, the metric table are extracted. -/
def ExtractScore8 (msg : List Char) : AnalysisResult :=
  if (trimL msg).isEmpty then ⟨[], none⟩
  else ⟨if containsSeg (toL "|--") msg then rowEntries msg else [], findOverall msg⟩

/-- A JavaScript value handed to the `part_004` `ExtractScore`. -/
inductive JSIn where
  | jstr : List Char → JSIn
  | jobj : List (List Char × JVal) → JSIn
  | jarr : List JVal → JSIn
  | jnum : Rat → JSIn
  | jbool : Bool → JSIn
  | jnull : JSIn
  | jundef : JSIn

/-- The analysis result of the any-typed variant: scores are whatever
value sat under the `score` key, and the overall score is whatever value
`overall_greenwashing_score.score` held. -/
structure AnalysisResult4 where
  metrics4 : List (List Char × JVal)
  overallScore4 : Option JVal

/-- Is the value falsy (`if (!message) return result`)? -/
def jsFalsy : JSIn → Bool
  | JSIn.jstr s => s.isEmpty
  | JSIn.jnum q => q = 0
  | JSIn.jbool b => !b
  | JSIn.jnull => true
  | JSIn.jundef => true
  | JSIn.jobj _ => false
  | JSIn.jarr _ => false

/-- A parsed JSON value re-entering `ExtractScore` (`part_004` line 64). -/
def ofJVal : JVal → JSIn
  | JVal.num q => JSIn.jnum q
  | JVal.str s => JSIn.jstr s
  | JVal.obj kvs => JSIn.jobj kvs
  | JVal.arr vs => JSIn.jarr vs
  | JVal.jsbool b => JSIn.jbool b
  | JVal.null => JSIn.jnull

/-- The object-entries loop of `part_004` lines 48-54: the
`overall_greenwashing_score` entry sets the overall score to its `score`
field (`?? null`); every other truthy object entry owning a `score` key
contributes a metric. -/
def entriesLoop (kvs : List (List Char × JVal)) : AnalysisResult4 :=
  kvs.foldl
    (fun acc p =>
      if p.1 = ogsKey then { acc with overallScore4 := getField p.2 scoreKey }
      else
        match p.2 with
        | JVal.obj kvs2 =>
          match getField (JVal.obj kvs2) scoreKey with
          | some v => { acc with metrics4 := acc.metrics4 ++ [(p.1, v)] }
          | none => acc
        | _ => acc)
    ⟨[], none⟩

/-- The string regex path of `part_004` lines 67-87 (no trim guard in
this variant). -/
def regexPath4 (s : List Char) : AnalysisResult4 :=
  ⟨if containsSeg (toL "|--") s then
      (rowEntries s).map (fun e => (e.Metric, JVal.num (e.Score.getD 0)))
    else [],
    (findOverall s).map JVal.num⟩

/-- `ExtractScore` of `src/unnamed/part_004`, fuel-bounded: string input
first attempts `JSON.parse` and recurses on the parsed value (each such
step strictly shrinks the text, so the input length bounds the
recursion). -/
def ExtractScore4 : Nat → JSIn → AnalysisResult4
  | fuel, m =>
    if jsFalsy m then ⟨[], none⟩
    else
      match m with
      | JSIn.jobj kvs => entriesLoop kvs
      | JSIn.jarr vs => entriesLoop (vs.enum.map (fun p => (toL (toString p.1), p.2)))
      | JSIn.jstr s =>
        match fuel with
        | 0 => regexPath4 s
        | fuel2 + 1 =>
          match jsonParse s with
          | some j => ExtractScore4 fuel2 (ofJVal j)
          | none => regexPath4 s
      | _ => ⟨[], none⟩

/-- `ExtractScore` of `part_004` applied to a string message. -/
def ExtractScore4S (s : List Char) : AnalysisResult4 :=
  ExtractScore4 s.length (JSIn.jstr s)

/-! ### Locale resolution

Modelled from the spec: the locale-aware report variant (the
locale-resolution routine of spec 4.4) is not present under `src/`;
following the specification text, resolution selects the entry for the
requested locale's two-letter code, then tries the fixed ordered fallback
list (whose first entry is `de`), then the legacy unlocalized field, and
otherwise returns the empty string — it never throws. -/

/-- First entry of an association list with the given key. -/
def lookupA (k : List Char) : List (List Char × List Char) → Option (List Char)
  | [] => none
  | (k2, v) :: rest => if k2 = k then some v else lookupA k rest

/-- The fixed ordered fallback locales, `de` first. -/
def fallbackLocales : List (List Char) := [toL "de", toL "it", toL "en"]

/-- First fallback locale present in the map. -/
def firstHit : List (List Char) → List (List Char × List Char) → Option (List Char)
  | [], _ => none
  | k :: ks, m =>
    match lookupA k m with
    | some v => some v
    | none => firstHit ks m

/-- Modelled from the spec: locale resolution over a locale-keyed text
map with a legacy unlocalized fallback field. -/
def resolveLocale (req : List Char) (m : List (List Char × List Char))
    (legacy : Option (List Char)) : List Char :=
  match lookupA (req.take 2) m with
  | some t => t
  | none =>
    match firstHit fallbackLocales m with
    | some t => t
    | none => legacy.getD []

/-! ### Infrastructure lemmas on prefixes, occurrences and trimming -/

theorem isPrefixOf_append_self (x y : List Char) : x.isPrefixOf (x ++ y) = true := by
  induction x with
  | nil => simp [List.isPrefixOf]
  | cons c x ih => simp [List.isPrefixOf, ih]

theorem isPrefixOf_append_split (a b y : List Char) :
    (a ++ b).isPrefixOf y = true ↔
      a.isPrefixOf y = true ∧ b.isPrefixOf (y.drop a.length) = true := by
  induction a generalizing y with
  | nil => simp [List.isPrefixOf]
  | cons c a ih =>
    cases y with
    | nil => simp [List.isPrefixOf]
    | cons d y2 => simp [List.isPrefixOf, ih, and_assoc]

theorem isPrefixOf_of_take {p y : List Char} {j : Nat}
    (h : p.isPrefixOf (y.take j) = true) : p.isPrefixOf y = true := by
  induction p generalizing y j with
  | nil => simp [List.isPrefixOf]
  | cons c p ih =>
    cases j with
    | zero => simp [List.isPrefixOf] at h
    | succ j2 =>
      cases y with
      | nil => simp [List.isPrefixOf] at h
      | cons d y2 =>
        rw [List.take_succ_cons] at h
        simp only [List.isPrefixOf, Bool.and_eq_true] at h ⊢
        exact ⟨h.1, ih h.2⟩

theorem headsStart_iff (n : Nat) (y : List Char) :
    headsStart n y = true ↔
      ∃ c, isWs c = true ∧ (startPat n ++ [c]).isPrefixOf y = true := by
  constructor
  · intro h
    unfold headsStart at h
    rw [Bool.and_eq_true] at h
    obtain ⟨h1, h2⟩ := h
    cases hd : y.drop (startPat n).length with
    | nil => rw [hd] at h2; simp at h2
    | cons c rest =>
      rw [hd] at h2
      refine ⟨c, h2, ?_⟩
      rw [isPrefixOf_append_split]
      refine ⟨h1, ?_⟩
      rw [hd]
      simp [List.isPrefixOf]
  · rintro ⟨c, hc, hp⟩
    rw [isPrefixOf_append_split] at hp
    unfold headsStart
    rw [Bool.and_eq_true]
    refine ⟨hp.1, ?_⟩
    cases hd : y.drop (startPat n).length with
    | nil =>
      have := hp.2
      rw [hd] at this
      simp [List.isPrefixOf] at this
    | cons d rest =>
      have := hp.2
      rw [hd] at this
      simp [List.isPrefixOf] at this
      rw [← this]
      exact hc

theorem hasStart_iff (n : Nat) (l : List Char) :
    hasStart n l = true ↔ ∃ i, headsStart n (l.drop i) = true := by
  induction l with
  | nil => simp [hasStart, headsStart, startPat, List.isPrefixOf]
  | cons c rest ih =>
    simp only [hasStart, Bool.or_eq_true, ih]
    constructor
    · rintro (h | ⟨i, h⟩)
      · exact ⟨0, by simpa using h⟩
      · exact ⟨i + 1, by simpa using h⟩
    · rintro ⟨i, h⟩
      cases i with
      | zero => exact Or.inl (by simpa using h)
      | succ i2 => exact Or.inr ⟨i2, by simpa using h⟩

theorem headsStart_of_take {n : Nat} {y : List Char} {j : Nat}
    (h : headsStart n (y.take j) = true) : headsStart n y = true := by
  rw [headsStart_iff] at h ⊢
  obtain ⟨c, hc, hp⟩ := h
  exact ⟨c, hc, isPrefixOf_of_take hp⟩

theorem hasStart_of_take {n : Nat} {l : List Char} {j : Nat}
    (h : hasStart n (l.take j) = true) : hasStart n l = true := by
  rw [hasStart_iff] at h ⊢
  obtain ⟨i, hi⟩ := h
  rw [List.drop_take] at hi
  exact ⟨i, headsStart_of_take hi⟩

theorem hasStart_of_dropWhile {n : Nat} {p : Char → Bool} {l : List Char}
    (h : hasStart n (l.dropWhile p) = true) : hasStart n l = true := by
  induction l with
  | nil => simpa [List.dropWhile] using h
  | cons c rest ih =>
    by_cases hp : p c
    · rw [List.dropWhile_cons, if_pos hp] at h
      simp [hasStart, ih h]
    · rwa [List.dropWhile_cons, if_neg hp] at h

theorem dropWhile_eq_drop (p : Char → Bool) (l : List Char) :
    ∃ a, l.dropWhile p = l.drop a := by
  induction l with
  | nil => exact ⟨0, rfl⟩
  | cons c rest ih =>
    by_cases hp : p c
    · obtain ⟨a, ha⟩ := ih
      exact ⟨a + 1, by simp [List.dropWhile_cons, hp, ha]⟩
    · exact ⟨0, by simp [List.dropWhile_cons, hp]⟩

theorem rightTrim_take (x : List Char) :
    ∃ k, (x.reverse.dropWhile isWs).reverse = x.take k := by
  obtain ⟨a, ha⟩ := dropWhile_eq_drop isWs x.reverse
  refine ⟨x.length - a, ?_⟩
  rw [ha, List.reverse_drop]
  simp

theorem hasStart_trimL {n : Nat} {l : List Char} (h : hasStart n l = false) :
    hasStart n (trimL l) = false := by
  by_contra hc
  rw [Bool.not_eq_false] at hc
  obtain ⟨k, hk⟩ := rightTrim_take (l.dropWhile isWs)
  rw [trimL, hk] at hc
  have := hasStart_of_dropWhile (hasStart_of_take hc)
  simp [this] at h

theorem containsSeg_iff (pat l : List Char) :
    containsSeg pat l = true ↔ ∃ i, pat.isPrefixOf (l.drop i) = true := by
  induction l with
  | nil =>
    cases pat with
    | nil => simp [containsSeg, List.isPrefixOf]
    | cons c p => simp [containsSeg, List.isPrefixOf]
  | cons c rest ih =>
    simp only [containsSeg, Bool.or_eq_true, ih]
    constructor
    · rintro (h | ⟨i, h⟩)
      · exact ⟨0, by simpa using h⟩
      · exact ⟨i + 1, by simpa using h⟩
    · rintro ⟨i, h⟩
      cases i with
      | zero => exact Or.inl (by simpa using h)
      | succ i2 => exact Or.inr ⟨i2, by simpa using h⟩

theorem not_containsSeg_heading {m : Nat} {l : List Char} (h : hasStart m l = false)
    (t : List Char) : containsSeg (headingTxt m t) l = false := by
  by_contra hc
  rw [Bool.not_eq_false, containsSeg_iff] at hc
  obtain ⟨i, hi⟩ := hc
  have hre : headingTxt m t = (startPat m ++ [' ']) ++ (t ++ ['*', '*']) := by
    simp [headingTxt]
  rw [hre, isPrefixOf_append_split] at hi
  have hh : headsStart m (l.drop i) = true := by
    rw [headsStart_iff]
    exact ⟨' ', by decide, hi.1⟩
  have : hasStart m l = true := (hasStart_iff m l).2 ⟨i, hh⟩
  simp [this] at h

/-! ### Computation lemmas for the section extractor -/

theorem extractSection_skip {n : Nat} (P rest : List Char)
    (h : ∀ i, i < P.length → headsStart n ((P ++ rest).drop i) = false) :
    extractSection n (P ++ rest) = extractSection n rest := by
  induction P with
  | nil => rfl
  | cons c P2 ih =>
    have h0 : headsStart n (c :: (P2 ++ rest)) = false := by
      simpa using h 0 (by simp)
    rw [List.cons_append]
    simp only [extractSection, h0, Bool.false_eq_true, if_false]
    exact ih (fun i hi => by
      simpa using h (i + 1) (by simpa using Nat.succ_lt_succ hi))

theorem extractSection_pos {n : Nat} {L : List Char} (h : headsStart n L = true) :
    extractSection n L = trimL (stripHead n (takeMatch n L)) := by
  cases L with
  | nil => simp [headsStart, startPat, List.isPrefixOf] at h
  | cons c rest => simp [extractSection, h]

theorem grabMatch_exact {n : Nat} (x S : List Char)
    (hx : ∀ i, i < x.length → atEnd n ((x ++ S).drop i) = false)
    (hS : atEnd n S = true) :
    grabMatch n (x ++ S) = x := by
  induction x with
  | nil =>
    cases S with
    | nil => rfl
    | cons c rest => simp [grabMatch, hS]
  | cons c x2 ih =>
    have h0 : atEnd n (c :: (x2 ++ S)) = false := by
      simpa using hx 0 (by simp)
    rw [List.cons_append]
    simp only [grabMatch, h0, Bool.false_eq_true, if_false, List.cons.injEq, true_and]
    exact ih (fun i hi => by
      simpa using hx (i + 1) (by simpa using Nat.succ_lt_succ hi))

theorem findClose_through (x y : List Char)
    (hx : ∀ c ∈ x, c ≠ '*' ∧ c ≠ '\n' ∧ c ≠ '\r') :
    findClose (x ++ '*' :: '*' :: y) = some y := by
  induction x with
  | nil => simp [findClose]
  | cons c x2 ih =>
    have hc := hx c (by simp)
    cases x2 with
    | nil => simp [findClose, hc.1, hc.2.1, hc.2.2]
    | cons d x3 =>
      rw [List.cons_append, List.cons_append]
      rw [show findClose (c :: d :: (x3 ++ '*' :: '*' :: y)) =
            findClose (d :: (x3 ++ '*' :: '*' :: y)) from by
        simp [findClose, hc.1, hc.2.1, hc.2.2]]
      have := ih (fun e he => hx e (by simp [he]))
      simpa using this

theorem extractSection_at_heading (n : Nat) (t b S : List Char)
    (hT : ∀ c ∈ t, c ≠ '*' ∧ c ≠ '\n' ∧ c ≠ '\r')
    (hMid : ∀ i, i < (t ++ '*' :: '*' :: '\n' :: b).length →
      atEnd n (((t ++ '*' :: '*' :: '\n' :: b) ++ S).drop i) = false)
    (hS : atEnd n S = true) :
    extractSection n (headingTxt n t ++ '\n' :: (b ++ S)) = trimL b := by
  have key : headingTxt n t ++ '\n' :: (b ++ S) =
      (startPat n ++ [' ']) ++ ((t ++ '*' :: '*' :: '\n' :: b) ++ S) := by
    simp [headingTxt]
  rw [key]
  have hhead : headsStart n
      ((startPat n ++ [' ']) ++ ((t ++ '*' :: '*' :: '\n' :: b) ++ S)) = true := by
    rw [headsStart_iff]
    exact ⟨' ', by decide, isPrefixOf_append_self _ _⟩
  rw [extractSection_pos hhead]
  have hlen : ((startPat n) ++ [' ']).length = (startPat n).length + 1 := by simp
  have htake : takeMatch n ((startPat n ++ [' ']) ++ ((t ++ '*' :: '*' :: '\n' :: b) ++ S)) =
      (startPat n ++ [' ']) ++ (t ++ '*' :: '*' :: '\n' :: b) := by
    unfold takeMatch
    rw [← hlen, List.take_left, List.drop_left]
    rw [grabMatch_exact _ _ hMid hS]
  rw [htake]
  have hstrip : stripHead n ((startPat n ++ [' ']) ++ (t ++ '*' :: '*' :: '\n' :: b)) =
      '\n' :: b := by
    unfold stripHead
    have hpre : (startPat n).isPrefixOf
        ((startPat n ++ [' ']) ++ (t ++ '*' :: '*' :: '\n' :: b)) = true := by
      rw [List.append_assoc]
      exact isPrefixOf_append_self _ _
    have hdrop : ((startPat n ++ [' ']) ++ (t ++ '*' :: '*' :: '\n' :: b)).drop
        (startPat n).length = ' ' :: (t ++ '*' :: '*' :: '\n' :: b) := by
      rw [List.append_assoc]
      exact List.drop_left _ _
    have hclose : findClose (' ' :: (t ++ '*' :: '*' :: '\n' :: b)) = some ('\n' :: b) := by
      have : ' ' :: (t ++ '*' :: '*' :: '\n' :: b) = (' ' :: t) ++ '*' :: '*' :: ('\n' :: b) := by
        simp
      rw [this]
      refine findClose_through (' ' :: t) ('\n' :: b) ?_
      intro c hc
      rcases List.mem_cons.mp hc with h | h
      · subst h
        exact ⟨by decide, by decide, by decide⟩
      · exact hT c h
    rw [hpre, hdrop, hclose]
    simp
  rw [hstrip]
  have : trimL ('\n' :: b) = trimL b := by
    unfold trimL
    rw [List.dropWhile_cons]
    simp [isWs]
  rw [this]

/-- C1: for a document in the emphasis heading grammar — preceding text
`P` free of the section-`n` heading start, the heading `**n. t**`, a
newline, the body `b` (free of heading starts for `n` and `n+1` and, via
`hMid`, of blank-line heading starts for `n+1`/`n+2`), and a tail `S`
that is empty or begins with the blank line and heading of section `n+1`
or `n+2` — `extractSection` returns exactly the trimmed body, spanning
from after section `n`'s heading up to that next heading, and the body
contains neither the heading text of section `n` nor any heading text of
section `n+1`. -/
theorem extractSection_grammar_bounds (n : Nat) (t b P S : List Char)
    (hT : ∀ c ∈ t, c ≠ '*' ∧ c ≠ '\n' ∧ c ≠ '\r')
    (hP : ∀ i, i < P.length →
      headsStart n ((P ++ (headingTxt n t ++ '\n' :: (b ++ S))).drop i) = false)
    (hMid : ∀ i, i < (t ++ '*' :: '*' :: '\n' :: b).length →
      atEnd n (((t ++ '*' :: '*' :: '\n' :: b) ++ S).drop i) = false)
    (hS : atEnd n S = true)
    (hBn : hasStart n b = false)
    (hBn1 : hasStart (n + 1) b = false) :
    extractSection n (P ++ (headingTxt n t ++ '\n' :: (b ++ S))) = trimL b ∧
      containsSeg (headingTxt n t) (trimL b) = false ∧
      ∀ t2, containsSeg (headingTxt (n + 1) t2) (trimL b) = false := by
  refine ⟨?_, ?_, fun t2 => ?_⟩
  · rw [extractSection_skip P _ hP]
    exact extractSection_at_heading n t b S hT hMid hS
  · exact not_containsSeg_heading (hasStart_trimL hBn) t
  · exact not_containsSeg_heading (hasStart_trimL hBn1) t2

/-- Witness for C1 at a concrete three-section document. -/
theorem extractSection_grammar_bounds_witness :
    extractSection 2 (toL "**1. Intro**\nIntro body.\n\n" ++
        (headingTxt 2 (toL "Key Findings") ++ '\n' ::
          (toL "Body text one." ++ toL "\n\n**3. Next**\nTail."))) =
      trimL (toL "Body text one.") ∧
    containsSeg (headingTxt 2 (toL "Key Findings")) (trimL (toL "Body text one.")) = false ∧
    containsSeg (headingTxt 3 (toL "Next")) (trimL (toL "Body text one.")) = false :=
  ⟨(extractSection_grammar_bounds 2 (toL "Key Findings") (toL "Body text one.")
      (toL "**1. Intro**\nIntro body.\n\n") (toL "\n\n**3. Next**\nTail.")
      (by decide) (by decide) (by decide) (by decide) (by decide) (by decide)).1,
   (extractSection_grammar_bounds 2 (toL "Key Findings") (toL "Body text one.")
      (toL "**1. Intro**\nIntro body.\n\n") (toL "\n\n**3. Next**\nTail.")
      (by decide) (by decide) (by decide) (by decide) (by decide) (by decide)).2.1,
   (extractSection_grammar_bounds 2 (toL "Key Findings") (toL "Body text one.")
      (toL "**1. Intro**\nIntro body.\n\n") (toL "\n\n**3. Next**\nTail.")
      (by decide) (by decide) (by decide) (by decide) (by decide) (by decide)).2.2
     (toL "Next")⟩

theorem extractSection_of_no_heading {n : Nat} {s : List Char}
    (h : hasStart n s = false) : extractSection n s = [] := by
  induction s with
  | nil => rfl
  | cons c rest ih =>
    simp only [hasStart, Bool.or_eq_false_iff] at h
    simp only [extractSection, h.1, Bool.false_eq_true, if_false]
    exact ih h.2

/-- C6: the extractor is total and never raises: a non-string value and
the empty string yield the empty string, and so does any string in which
the requested section's heading pattern never occurs. -/
theorem extractSection_total (n : Nat) (s : List Char) :
    extractSectionJS n JSVal.nonStr = [] ∧ extractSection n [] = [] ∧
      (hasStart n s = false → extractSection n s = []) :=
  ⟨rfl, rfl, fun h => extractSection_of_no_heading h⟩

/-- Witness for C6 at a concrete heading-free string. -/
theorem extractSection_total_witness :
    extractSectionJS 7 JSVal.nonStr = [] ∧ extractSection 7 [] = [] ∧
      extractSection 7 (toL "no headings here") = [] :=
  ⟨(extractSection_total 7 (toL "no headings here")).1,
   (extractSection_total 7 (toL "no headings here")).2.1,
   (extractSection_total 7 (toL "no headings here")).2.2 (by decide)⟩

/-! ### The summary fallback chain (C5) -/

theorem execMatch_none {fs : List Char} (h : containsSeg lit1 fs = false) :
    execMatch fs = none := by
  induction fs with
  | nil => rfl
  | cons c rest ih =>
    simp only [containsSeg, Bool.or_eq_false_iff] at h
    simp only [execMatch, h.1, Bool.false_eq_true, if_false]
    exact ih h.2

theorem execMatch_skip (P rest : List Char)
    (h : ∀ i, i < P.length → lit1.isPrefixOf ((P ++ rest).drop i) = false) :
    execMatch (P ++ rest) = execMatch rest := by
  induction P with
  | nil => rfl
  | cons c P2 ih =>
    have h0 : lit1.isPrefixOf (c :: (P2 ++ rest)) = false := by
      simpa using h 0 (by simp)
    rw [List.cons_append]
    simp only [execMatch, h0, Bool.false_eq_true, if_false]
    exact ih (fun i hi => by
      simpa using h (i + 1) (by simpa using Nat.succ_lt_succ hi))

theorem grabUntil_exact (term B C : List Char) (hne : term ≠ [])
    (hB : ∀ i, i < B.length → term.isPrefixOf ((B ++ (term ++ C)).drop i) = false) :
    grabUntil term (B ++ (term ++ C)) = some B := by
  induction B with
  | nil =>
    cases hterm : term with
    | nil => exact absurd hterm hne
    | cons a as =>
      have hp : (a :: as).isPrefixOf (a :: (as ++ C)) = true :=
        isPrefixOf_append_self (a :: as) C
      simp [grabUntil, hp]
  | cons c B2 ih =>
    have h0 : term.isPrefixOf (c :: (B2 ++ (term ++ C))) = false := by
      simpa using hB 0 (by simp)
    rw [List.cons_append]
    simp only [grabUntil, h0, Bool.false_eq_true, if_false]
    rw [ih (fun i hi => by
      simpa using hB (i + 1) (by simpa using Nat.succ_lt_succ hi))]

theorem execMatch_pos {L g : List Char} (h : lit1.isPrefixOf L = true)
    (hg : grabUntil sep2 (L.drop lit1.length) = some g) : execMatch L = some g := by
  cases L with
  | nil => simp [lit1, toL, List.isPrefixOf] at h
  | cons c rest =>
    simp only [execMatch, h, if_true]
    rw [hg]

/-- C5 counterexample: on the document `"Hello.\n\nWorld."` the code
skips the specification's middle fallback step (first paragraph before a
blank line) and returns the first 200 characters plus an ellipsis, so
the three-step chain the claim describes disagrees with the code. -/
theorem summary_fallback_counterexample :
    summary (toL "Hello.\n\nWorld.") none = toL "Hello.\n\nWorld...." ∧
      specSummaryChain (toL "Hello.\n\nWorld.") = toL "Hello." ∧
      summary (toL "Hello.\n\nWorld.") none ≠ specSummaryChain (toL "Hello.\n\nWorld.") := by
  exact ⟨by decide, by decide, by decide⟩

/-- C5 amended: the executive summary is computed by a two-step fallback
chain: keyed extraction of the section-1 body (the literal heading up to
a blank line followed by `**2.`), and otherwise the first 200 characters
of the document followed by an ellipsis; there is no first-paragraph
step. -/
theorem summary_two_step_chain (A B C fs : List Char) (sfield : Option (List Char)) :
    (fs = A ++ (lit1 ++ (B ++ (sep2 ++ C))) →
        (∀ i, i < A.length → lit1.isPrefixOf (fs.drop i) = false) →
        (∀ i, i < B.length → sep2.isPrefixOf ((B ++ (sep2 ++ C)).drop i) = false) →
        summary fs sfield = trimL B) ∧
      (containsSeg lit1 fs = false → fs ≠ [] →
        summary fs sfield = fs.take 200 ++ toL "...") := by
  constructor
  · intro hfs hA hB
    subst hfs
    have hne : (A ++ (lit1 ++ (B ++ (sep2 ++ C)))).isEmpty = false := by
      cases A with
      | nil => rfl
      | cons a A2 => rfl
    simp only [summary, hne, Bool.false_eq_true, if_false]
    unfold summaryFS
    rw [execMatch_skip A _ hA]
    have hg : grabUntil sep2 ((lit1 ++ (B ++ (sep2 ++ C))).drop lit1.length) = some B := by
      rw [List.drop_left]
      exact grabUntil_exact sep2 B C (by decide) hB
    rw [execMatch_pos (isPrefixOf_append_self _ _) hg]
  · intro hno hne
    have hne2 : fs.isEmpty = false := by
      cases fs with
      | nil => exact absurd rfl hne
      | cons c r => rfl
    simp only [summary, hne2, Bool.false_eq_true, if_false]
    unfold summaryFS
    rw [execMatch_none hno]

/-- Witness for C5 at a concrete document with a preamble and at a
concrete heading-free document. -/
theorem summary_two_step_chain_witness :
    summary (toL "Preamble.\n\n" ++ (lit1 ++ (toL "\nGood summary." ++
        (sep2 ++ toL " Key Findings**\nStuff.")))) none = trimL (toL "\nGood summary.") ∧
      summary (toL "Hi.") none = (toL "Hi.").take 200 ++ toL "..." :=
  ⟨(summary_two_step_chain (toL "Preamble.\n\n") (toL "\nGood summary.")
      (toL " Key Findings**\nStuff.")
      (toL "Preamble.\n\n" ++ (lit1 ++ (toL "\nGood summary." ++
        (sep2 ++ toL " Key Findings**\nStuff.")))) none).1 rfl (by decide) (by decide),
   (summary_two_step_chain [] [] [] (toL "Hi.") none).2 (by decide) (by decide)⟩

/-- C2 counterexample: a findings section containing exactly two
Quotation labels still yields a single evidence entry, whose quotation
is the whole trimmed section body with the text preceding the first
Quotation occurrence merged in, not two entries plus a standalone
summary. -/
theorem evidenceGroups_two_quotations_counterexample :
    extractSection 2 (toL "**1. A**\nIgnored.\n\n**2. Findings**\nIntro. Quotation: A. Quotation: B.\n\n**3. C**\nTail.") =
        toL "Intro. Quotation: A. Quotation: B." ∧
      countSeg (toL "Quotation") (toL "Intro. Quotation: A. Quotation: B.") = 2 ∧
      evidenceGroups (toL "**1. A**\nIgnored.\n\n**2. Findings**\nIntro. Quotation: A. Quotation: B.\n\n**3. C**\nTail.") =
        [⟨evTypeLabel, [⟨toL "Intro. Quotation: A. Quotation: B.", []⟩]⟩] ∧
      evItemCount (evidenceGroups (toL "**1. A**\nIgnored.\n\n**2. Findings**\nIntro. Quotation: A. Quotation: B.\n\n**3. C**\nTail.")) = 1 ∧
      containsSeg (toL "Intro.") (toL "Intro. Quotation: A. Quotation: B.") = true := by
  exact ⟨by decide, by decide, by decide, by decide, by decide⟩

/-- C2 amended: for every findings-section body, the evidence parsing of
the cited code produces at most one entry; when section 2 is non-empty it
produces exactly one entry whose quotation is the whole trimmed body and
whose explanation is empty, with no standalone summary. -/
theorem evidenceGroups_single_entry (fs : List Char) :
    evItemCount (evidenceGroups fs) ≤ 1 ∧
      (extractSection 2 fs ≠ [] →
        evidenceGroups fs = [⟨evTypeLabel, [⟨trimL (extractSection 2 fs), []⟩]⟩]) := by
  constructor
  · by_cases h : (extractSection 2 fs).isEmpty
    · simp [evidenceGroups, evItemCount, h]
    · simp [evidenceGroups, evItemCount, h]
  · intro h
    have h2 : (extractSection 2 fs).isEmpty = false := by
      cases hx : extractSection 2 fs with
      | nil => exact absurd hx h
      | cons c r => rfl
    simp [evidenceGroups, h2]

/-- Witness for C2's amended claim at a concrete one-section document. -/
theorem evidenceGroups_single_entry_witness :
    evItemCount (evidenceGroups (toL "**2. F**\nBody.")) ≤ 1 ∧
      evidenceGroups (toL "**2. F**\nBody.") =
        [⟨evTypeLabel, [⟨trimL (extractSection 2 (toL "**2. F**\nBody.")), []⟩]⟩] :=
  ⟨(evidenceGroups_single_entry (toL "**2. F**\nBody.")).1,
   (evidenceGroups_single_entry (toL "**2. F**\nBody.")).2 (by decide)⟩

/-! ### The chat exchange (C3, C4, C8) -/

/-- C3: feeding the stream assembler the chunks `["Hel", "lo wor", "ld"]`
yields the accumulator states `"Hel"`, `"Hello wor"`, `"Hello world"`,
commits a final assistant message `"Hello world"` and clears the
partial-message slot. -/
theorem streamAssembler_hello_world :
    (handleSend ⟨[], none, "hi", false⟩
        (Transport.okStream ["Hel", "lo wor", "ld"])).accTrace =
        ["Hel", "Hello wor", "Hello world"] ∧
      (handleSend ⟨[], none, "hi", false⟩
          (Transport.okStream ["Hel", "lo wor", "ld"])).state.messages =
        [⟨Role.user, "hi"⟩, ⟨Role.assistant, "Hello world"⟩] ∧
      (handleSend ⟨[], none, "hi", false⟩
          (Transport.okStream ["Hel", "lo wor", "ld"])).state.currentMessage = none := by
  exact ⟨by decide, by decide, by decide⟩

/-- C4: on a rejected request, a non-success response, or a mid-stream
read failure, `handleSend` appends exactly the user message and a
synthesized `Error: ...` assistant message — never the partial
accumulated text — and completes normally with the in-flight flag
cleared. -/
theorem handleSend_failure_synthesizes_message (st : ChatState) (e : Option String)
    (chunks : List String) (e2 : Option String)
    (hin : jsTrim st.input ≠ "") (hfl : st.sendingMessage = false) :
    (handleSend st (Transport.rejected e)).state.messages =
        st.messages ++ [⟨Role.user, jsTrim st.input⟩, ⟨Role.assistant, errText e⟩] ∧
      (handleSend st Transport.badStatus).state.messages =
        st.messages ++ [⟨Role.user, jsTrim st.input⟩,
          ⟨Role.assistant, "Error: " ++ badStatusMsg⟩] ∧
      (handleSend st (Transport.okStreamFail chunks e2)).state.messages =
        st.messages ++ [⟨Role.user, jsTrim st.input⟩, ⟨Role.assistant, errText e2⟩] ∧
      (handleSend st (Transport.rejected e)).state.sendingMessage = false ∧
      (handleSend st (Transport.okStreamFail chunks e2)).state.sendingMessage = false := by
  have hg : (jsTrim st.input = "" || st.sendingMessage) = false := by
    simp [hin, hfl]
  refine ⟨?_, ?_, ?_, ?_, ?_⟩ <;>
    simp [handleSend, hg, errText, badStatusMsg]

/-- Witness for C4 at a concrete state and failure messages. -/
theorem handleSend_failure_synthesizes_message_witness :
    (handleSend ⟨[], none, "query", false⟩
        (Transport.rejected (some "boom"))).state.messages =
        [] ++ [⟨Role.user, jsTrim "query"⟩, ⟨Role.assistant, errText (some "boom")⟩] ∧
      (handleSend ⟨[], none, "query", false⟩ Transport.badStatus).state.messages =
        [] ++ [⟨Role.user, jsTrim "query"⟩,
          ⟨Role.assistant, "Error: " ++ badStatusMsg⟩] ∧
      (handleSend ⟨[], none, "query", false⟩
          (Transport.okStreamFail ["par", "tial"] none)).state.messages =
        [] ++ [⟨Role.user, jsTrim "query"⟩, ⟨Role.assistant, errText none⟩] ∧
      (handleSend ⟨[], none, "query", false⟩
          (Transport.rejected (some "boom"))).state.sendingMessage = false ∧
      (handleSend ⟨[], none, "query", false⟩
          (Transport.okStreamFail ["par", "tial"] none)).state.sendingMessage = false :=
  handleSend_failure_synthesizes_message ⟨[], none, "query", false⟩ (some "boom")
    ["par", "tial"] none (by decide) rfl

/-- C8: while an exchange is in flight (`sendingMessage` true), invoking
send performs no action: the state is unchanged, no user message is
appended and no request is issued. -/
theorem handleSend_in_flight_noop (st : ChatState) (tr : Transport)
    (h : st.sendingMessage = true) :
    handleSend st tr = ⟨st, false, []⟩ := by
  simp [handleSend, h]

/-- Witness for C8 at a concrete in-flight state. -/
theorem handleSend_in_flight_noop_witness :
    handleSend ⟨[⟨Role.user, "a"⟩], some "part", "next msg", true⟩ Transport.badStatus =
      ⟨⟨[⟨Role.user, "a"⟩], some "part", "next msg", true⟩, false, []⟩ :=
  handleSend_in_flight_noop _ _ rfl

/-! ### The metrics repair chain (C7) -/

/-- C7 counterexample: on an unparseable `graphdata` string with
`overall_score` 42, the score falls back to 42, not to the fixed zero
default the claim describes (the breakdown does fall back to the empty
list). -/
theorem score_fallback_counterexample :
    score (some (GraphData.gstr (toL "oops"))) (some 42) = some 42 ∧
      breakdown (some (GraphData.gstr (toL "oops"))) [] = [] ∧
      ¬ score (some (GraphData.gstr (toL "oops"))) (some 42) = some 0 := by
  have hp : parseChain (toL "oops") = none := rfl
  have h1 : score (some (GraphData.gstr (toL "oops"))) (some 42) = some 42 := by
    simp [score, hp, jsRoundN]
    norm_num
  refine ⟨h1, by simp [breakdown, hp], ?_⟩
  rw [h1]
  intro hc
  have := Option.some.inj hc
  norm_num at this

/-- C7 amended: for a string metrics payload, the code first strips code
fences and trims, then attempts a strict parse; on failure it tightens
stray whitespace around the outer braces and re-parses; if that also
fails, the score falls back to the rounded `overall_score` field (zero
when absent) and the breakdown to the empty list.  When a parse succeeds
on the null payload, the unguarded property access and `Object.entries`
throw and the surrounding catch applies those same fallbacks; on any
other parsed value the score is the rounded tenfold overall entry and
the breakdown maps `Object.entries` (index/value pairs for an array). -/
theorem score_repair_chain (s : List Char) (os : Option Rat) (j j2 : JVal)
    (fallbackRows : List (List Char × Option Rat)) :
    (jsonParse (cleanGraph s) = some j → nullPayload j = false →
        score (some (GraphData.gstr s)) os =
          jsRoundN ((overallFromGraph j).map (fun q => q * 10)) ∧
        breakdown (some (GraphData.gstr s)) fallbackRows =
          ((entriesOf j).filter (fun p => p.1 ≠ ogsKey)).map
            (fun p => breakdownRow p.1 p.2)) ∧
      (jsonParse (cleanGraph s) = none →
        jsonParse (fixClose (fixOpen (cleanGraph s))) = some j2 →
        nullPayload j2 = false →
        score (some (GraphData.gstr s)) os =
          jsRoundN ((overallFromGraph j2).map (fun q => q * 10)) ∧
        breakdown (some (GraphData.gstr s)) fallbackRows =
          ((entriesOf j2).filter (fun p => p.1 ≠ ogsKey)).map
            (fun p => breakdownRow p.1 p.2)) ∧
      (jsonParse (cleanGraph s) = none →
        jsonParse (fixClose (fixOpen (cleanGraph s))) = none →
        score (some (GraphData.gstr s)) os = jsRoundN (some (os.getD 0)) ∧
        breakdown (some (GraphData.gstr s)) fallbackRows = []) ∧
      (jsonParse (cleanGraph s) = some j → nullPayload j = true →
        score (some (GraphData.gstr s)) os = jsRoundN (some (os.getD 0)) ∧
        breakdown (some (GraphData.gstr s)) fallbackRows = []) := by
  refine ⟨fun h1 hn => ?_, fun h1 h2 hn => ?_, fun h1 h2 => ?_, fun h1 hn => ?_⟩
  · have hp : parseChain s = some j := by simp [parseChain, h1]
    exact ⟨by simp [score, hp, hn], by simp [breakdown, hp, hn]⟩
  · have hp : parseChain s = some j2 := by simp [parseChain, h1, h2]
    exact ⟨by simp [score, hp, hn], by simp [breakdown, hp, hn]⟩
  · have hp : parseChain s = none := by simp [parseChain, h1, h2]
    exact ⟨by simp [score, hp], by simp [breakdown, hp]⟩
  · have hp : parseChain s = some j := by simp [parseChain, h1]
    exact ⟨by simp [score, hp, hn], by simp [breakdown, hp, hn]⟩

/-- Witness for C7 exercising all four branches: a cleanly parsing
object payload, a cleanly parsing array payload (index/value entries), a
payload repaired by the brace-whitespace fix (a vertical tab after the
opening brace, which JSON rejects but `\s` accepts), a doubly failing
payload, and the null payload whose property access throws. -/
theorem score_repair_chain_witness :
    (score (some (GraphData.gstr
          (toL "\x7b\"overall_greenwashing_score\":\x7b\"score\":8\x7d\x7d"))) (some 3) =
        jsRoundN ((overallFromGraph (JVal.obj [(toL "overall_greenwashing_score",
          JVal.obj [(toL "score", JVal.num 8)])])).map (fun q => q * 10)) ∧
      breakdown (some (GraphData.gstr
          (toL "\x7b\"overall_greenwashing_score\":\x7b\"score\":8\x7d\x7d"))) [] =
        ((entriesOf (JVal.obj [(toL "overall_greenwashing_score",
            JVal.obj [(toL "score", JVal.num 8)])])).filter
          (fun p => p.1 ≠ ogsKey)).map (fun p => breakdownRow p.1 p.2)) ∧
    (score (some (GraphData.gstr (toL "[\x7b\"score\":2\x7d]"))) (some 3) =
        jsRoundN ((overallFromGraph
          (JVal.arr [JVal.obj [(toL "score", JVal.num 2)]])).map (fun q => q * 10)) ∧
      breakdown (some (GraphData.gstr (toL "[\x7b\"score\":2\x7d]"))) [] =
        ((entriesOf (JVal.arr [JVal.obj [(toL "score", JVal.num 2)]])).filter
          (fun p => p.1 ≠ ogsKey)).map (fun p => breakdownRow p.1 p.2)) ∧
    (score (some (GraphData.gstr (toL "\x7b\x0b\"a\":1\x7d"))) (some 3) =
        jsRoundN ((overallFromGraph (JVal.obj [(toL "a", JVal.num 1)])).map
          (fun q => q * 10)) ∧
      breakdown (some (GraphData.gstr (toL "\x7b\x0b\"a\":1\x7d"))) [] =
        ((entriesOf (JVal.obj [(toL "a", JVal.num 1)])).filter
          (fun p => p.1 ≠ ogsKey)).map (fun p => breakdownRow p.1 p.2)) ∧
    (score (some (GraphData.gstr (toL "oops"))) (some 3) =
        jsRoundN (some ((some (3 : Rat)).getD 0)) ∧
      breakdown (some (GraphData.gstr (toL "oops"))) [] = []) ∧
    (score (some (GraphData.gstr (toL "null"))) (some 3) =
        jsRoundN (some ((some (3 : Rat)).getD 0)) ∧
      breakdown (some (GraphData.gstr (toL "null"))) [] = []) :=
  ⟨(score_repair_chain (toL "\x7b\"overall_greenwashing_score\":\x7b\"score\":8\x7d\x7d")
      (some 3) (JVal.obj [(toL "overall_greenwashing_score",
        JVal.obj [(toL "score", JVal.num 8)])])
      (JVal.obj [(toL "overall_greenwashing_score",
        JVal.obj [(toL "score", JVal.num 8)])]) []).1 rfl rfl,
   (score_repair_chain (toL "[\x7b\"score\":2\x7d]") (some 3)
      (JVal.arr [JVal.obj [(toL "score", JVal.num 2)]])
      (JVal.arr [JVal.obj [(toL "score", JVal.num 2)]]) []).1 rfl rfl,
   (score_repair_chain (toL "\x7b\x0b\"a\":1\x7d") (some 3)
      (JVal.obj [(toL "a", JVal.num 1)]) (JVal.obj [(toL "a", JVal.num 1)]) []).2.1
     rfl rfl rfl,
   (score_repair_chain (toL "oops") (some 3) (JVal.obj [(toL "a", JVal.num 1)])
      (JVal.obj [(toL "a", JVal.num 1)]) []).2.2.1 rfl rfl,
   (score_repair_chain (toL "null") (some 3) JVal.null JVal.null []).2.2.2 rfl rfl⟩

/-! ### The chat-sidebar metrics extractor (C10) -/

/-- C10 counterexample: the `part_004` variant parses a JSON-object
string and returns a non-null overall score although the string contains
no `Overall Greenwashing Score` marker. -/
theorem extractScore4_json_counterexample :
    (ExtractScore4S
        (toL "\x7b\"overall_greenwashing_score\":\x7b\"score\":5\x7d\x7d")).overallScore4 =
      some (JVal.num 5) ∧
    findOverall (toL "\x7b\"overall_greenwashing_score\":\x7b\"score\":5\x7d\x7d") = none ∧
    ¬ (ExtractScore4S
        (toL "\x7b\"overall_greenwashing_score\":\x7b\"score\":5\x7d\x7d")).overallScore4 =
      none := by
  have h1 : (ExtractScore4S
      (toL "\x7b\"overall_greenwashing_score\":\x7b\"score\":5\x7d\x7d")).overallScore4 =
      some (JVal.num 5) := rfl
  refine ⟨h1, rfl, ?_⟩
  rw [h1]
  exact fun hc => Option.noConfusion hc

theorem rowEntry_isSome {r : List Char} {e : ScoreData} (h : rowEntry r = some e) :
    e.Score.isSome = true := by
  unfold rowEntry at h
  split at h
  · split at h
    · have := Option.some.inj h
      subst this
      rfl
    · exact absurd h (by simp)
  · exact absurd h (by simp)

/-- C10 amended: the plain-text variant (`part_008`) is total, returns a
null overall score when the marker regex never matches, an empty metric
list when `'|--'` does not occur, and only numeric non-NaN metric
scores; the `part_004` variant differs on strings that parse as JSON
(see the counterexample). -/
theorem extractScore8_guarantees (s : List Char) :
    (findOverall s = none → (ExtractScore8 s).overallScore = none) ∧
      (containsSeg (toL "|--") s = false → (ExtractScore8 s).metrics = []) ∧
      (∀ e ∈ (ExtractScore8 s).metrics, e.Score.isSome = true) := by
  refine ⟨fun h => ?_, fun h => ?_, fun e he => ?_⟩
  · unfold ExtractScore8
    cases ht : (trimL s).isEmpty <;> simp [ht, h]
  · unfold ExtractScore8
    cases ht : (trimL s).isEmpty <;> simp [ht, h]
  · unfold ExtractScore8 at he
    cases ht : (trimL s).isEmpty
    · rw [ht] at he
      simp only [Bool.false_eq_true, if_false] at he
      by_cases hc : containsSeg (toL "|--") s = true
      · rw [if_pos hc] at he
        unfold rowEntries at he
        obtain ⟨r, _, hre⟩ := List.mem_filterMap.mp he
        exact rowEntry_isSome hre
      · rw [if_neg hc] at he
        simp at he
    · rw [ht] at he
      simp at he

/-- Witness for C10's amended claim: a marker-free table document, a
table-free document, and the single metric entry produced from the
former. -/
theorem extractScore8_guarantees_witness :
    (ExtractScore8 (toL "|M|S|\n|--|--|\n|A|3|")).overallScore = none ∧
      (ExtractScore8 (toL "nothing here")).metrics = [] ∧
      (⟨toL "A", jsNumberStr (toL "3")⟩ : ScoreData).Score.isSome = true :=
  ⟨(extractScore8_guarantees (toL "|M|S|\n|--|--|\n|A|3|")).1 rfl,
   (extractScore8_guarantees (toL "nothing here")).2.1 (by decide),
   (extractScore8_guarantees (toL "|M|S|\n|--|--|\n|A|3|")).2.2
     ⟨toL "A", jsNumberStr (toL "3")⟩
     (by rw [show (ExtractScore8 (toL "|M|S|\n|--|--|\n|A|3|")).metrics =
         [⟨toL "A", jsNumberStr (toL "3")⟩] from rfl]; exact List.mem_singleton_self _)⟩

/-! ### Locale resolution (C9) -/

/-- C9 (modelled from the spec): for any locale map lacking the requested
`fr` entry but holding a `de` entry, resolution deterministically returns
the `de` text — the first declared fallback — and, being a total
function, never returns null and never throws. -/
theorem resolveLocale_fallback_de (m : List (List Char × List Char)) (a : List Char)
    (legacy : Option (List Char))
    (hfr : lookupA (toL "fr") m = none)
    (hde : lookupA (toL "de") m = some a) :
    resolveLocale (toL "fr") m legacy = a := by
  have htake : (toL "fr").take 2 = toL "fr" := by decide
  simp only [resolveLocale, htake, hfr, fallbackLocales, firstHit, hde]

/-- Witness for C9 at the map with exactly the keys `de` and `it`. -/
theorem resolveLocale_fallback_de_witness :
    resolveLocale (toL "fr") [(toL "de", toL "Hallo"), (toL "it", toL "Ciao")] none =
      toL "Hallo" :=
  resolveLocale_fallback_de [(toL "de", toL "Hallo"), (toL "it", toL "Ciao")]
    (toL "Hallo") none (by decide) (by decide)
